import Mathlib

/-!
Verification of the DRF_blog repository: a shallow embedding of the blog
data model (`apps/blog/models.py`), the public read-only query views
(`apps/blog/views.py`), the serializers (`apps/blog/serializers.py`), and
the write-time constraint / delete-policy semantics the schema declares,
together with proofs of the spec's testable properties.

Modelling conventions:
  - UUID primary keys become `Nat` identifiers (opaque, only compared).
  - Timestamps become `Nat` (only ordered).
  - A database table is a `List` of rows in insertion order.
  - `Post.status` has `choices = (("draft", ...), ("published", ...))`,
    embedded as the two-constructor inductive `Status`; the string order
    "draft" < "published" used by the declared Meta ordering
    `("status", "-created_at")` is reflected by `statusRank`.
  - Fallible writes (unique constraints, PROTECT foreign keys) return
    `Except String`.
-/

/-- The two values of `Post.status_options` in `models.py`
(`"draft"` and `"published"`). -/
inductive Status where
  | draft : Status
  | published : Status
deriving DecidableEq, Repr

/-- Category row (`class Category` in `models.py`): uuid id, optional
self-referential `parent` with `on_delete=CASCADE`, `name`, optional
`title`/`description`/`thumbnail`, and a (not-unique) `slug`. -/
structure Category where
  id : Nat
  parent : Option Nat
  name : String
  title : Option String
  description : Option String
  thumbnail : Option String
  slug : String
deriving DecidableEq, Repr

/-- Post row (`class Post` in `models.py`): uuid id, `category` foreign key
with `on_delete=PROTECT`, text fields, globally `unique=True` slug,
`created_at`, `updated_at`, and `status` defaulting to draft. -/
structure Post where
  id : Nat
  category : Nat
  title : String
  description : String
  content : String
  thumbnail : String
  keywords : String
  slug : String
  created_at : Nat
  updated_at : Nat
  status : Status
deriving DecidableEq, Repr

/-- Heading row (`class Heading` in `models.py`): uuid id, `post` foreign
key with `on_delete=PROTECT`, `title`, `slug`, `level` (1..6), `order`,
with `unique_together = [["post", "slug"], ["post", "order"]]`. -/
structure Heading where
  id : Nat
  post : Nat
  title : String
  slug : String
  level : Nat
  order : Nat
deriving DecidableEq, Repr

/-- `blog_thumbnail_directory(instance, filename)` in `models.py`:
`"blog/{0}/{1}".format(instance.title, filename)`. The Python parameter
`instance` is a reserved word in Lean, hence `inst`. -/
def blog_thumbnail_directory (inst : Post) (filename : String) : String :=
  "blog/" ++ inst.title ++ "/" ++ filename

/-- `category_thumbnail_directory(instance, filename)` in `models.py`:
`"blog_categories/{0}/{1}".format(instance.name, filename)`. -/
def category_thumbnail_directory (inst : Category) (filename : String) : String :=
  "blog_categories/" ++ inst.name ++ "/" ++ filename

/-- `Post.PostObjects.get_queryset` in `models.py`: the custom manager
narrows every query to `filter(status="published")`. -/
def postobjects (db : List Post) : List Post :=
  db.filter (fun p => p.status = Status.published)

/-- Rank of a status under the declared `Meta.ordering = ("status",
"-created_at")`: ascending by the status string, and
`"draft" < "published"` lexicographically. -/
def statusRank : Status → Nat
  | Status.draft => 0
  | Status.published => 1

/-- The default row order of `Post.Meta.ordering = ("status", "-created_at")`:
ascending status rank, then descending `created_at`. -/
def postLe (a b : Post) : Prop :=
  statusRank a.status < statusRank b.status ∨
    (statusRank a.status = statusRank b.status ∧ b.created_at ≤ a.created_at)

instance : DecidableRel postLe := fun a b => by
  unfold postLe
  infer_instance

instance : IsTotal Post postLe where
  total a b := by
    rcases Nat.lt_trichotomy (statusRank a.status) (statusRank b.status) with h | h | h
    · exact Or.inl (Or.inl h)
    · rcases Nat.le_total b.created_at a.created_at with h' | h'
      · exact Or.inl (Or.inr ⟨h, h'⟩)
      · exact Or.inr (Or.inr ⟨h.symm, h'⟩)
    · exact Or.inr (Or.inl h)

instance : IsTrans Post postLe where
  trans a b c hab hbc := by
    rcases hab with hab | ⟨hab, hab'⟩
    · rcases hbc with hbc | ⟨hbc, _⟩
      · exact Or.inl (Nat.lt_trans hab hbc)
      · exact Or.inl (hbc ▸ hab)
    · rcases hbc with hbc | ⟨hbc, hbc'⟩
      · exact Or.inl (hab ▸ hbc)
      · exact Or.inr ⟨hab.trans hbc, Nat.le_trans hbc' hab'⟩

/-- The queryset behind `PostListView` (`views.py`):
`Post.postobjects.all()`, which the store returns in the model's default
order `("status", "-created_at")`. -/
def listQueryset (db : List Post) : List Post :=
  List.insertionSort postLe (postobjects db)

/-- The record shape produced by `PostListSerializer.Meta.fields`
(`serializers.py`): exactly `id`, `title`, `description`, `thumbnail`,
`slug`, `category` — `content` is excluded. -/
structure PostListItem where
  id : Nat
  title : String
  description : String
  thumbnail : String
  slug : String
  category : Nat
deriving DecidableEq, Repr

/-- `PostListSerializer` applied to one row. -/
def postListSerialize (p : Post) : PostListItem :=
  { id := p.id, title := p.title, description := p.description,
    thumbnail := p.thumbnail, slug := p.slug, category := p.category }

/-- `GET /api/blog/posts/` (`PostListView`): serialize the published
queryset with the trimmed list serializer. -/
def listOutput (db : List Post) : List PostListItem :=
  (listQueryset db).map postListSerialize

/-- `GET /api/blog/post/{slug}/` (`PostDetailView` with
`lookup_field = "slug"` over `Post.postobjects.all()`): the first published
row whose slug matches exactly, `none` meaning HTTP 404. The full row is
returned (`PostSerializer` has `fields = "__all__"`). -/
def detailQuery (db : List Post) (slug : String) : Option Post :=
  (postobjects db).find? (fun p => p.slug == slug)

/-- Write of a new Post against the schema: `slug` has `unique=True`, so a
row whose slug is already present is rejected; otherwise the row is
appended unchanged. -/
def insertPost (db : List Post) (p : Post) : Except String (List Post) :=
  if db.any (fun q => q.slug == p.slug) then
    Except.error "UNIQUE constraint failed: blog_post.slug"
  else
    Except.ok (db ++ [p])

/-- Write of a new Heading against
`unique_together = [["post", "slug"], ["post", "order"]]`. -/
def insertHeading (hs : List Heading) (h : Heading) : Except String (List Heading) :=
  if hs.any (fun g => g.post == h.post && g.slug == h.slug) then
    Except.error "UNIQUE constraint failed: blog_heading.post_id, blog_heading.slug"
  else if hs.any (fun g => g.post == h.post && g.order == h.order) then
    Except.error "UNIQUE constraint failed: blog_heading.post_id, blog_heading.order"
  else
    Except.ok (hs ++ [h])

/-- The Post table after an attempted insert: unchanged when the write was
rejected. -/
def applyInsertPost (db : List Post) (p : Post) : List Post :=
  match insertPost db p with
  | Except.ok db' => db'
  | Except.error _ => db

/-- The Heading table after an attempted insert: unchanged when the write
was rejected. -/
def applyInsertHeading (hs : List Heading) (h : Heading) : List Heading :=
  match insertHeading hs h with
  | Except.ok hs' => hs'
  | Except.error _ => hs

/-- One step of Django's delete collector for `Category.parent` with
`on_delete=CASCADE`: every category whose parent is already collected is
collected too. -/
def childStep (cats : List Category) (del : List Nat) : List Nat :=
  del ++ (cats.filter (fun c =>
    match c.parent with
    | some p => decide (p ∈ del) && !(decide (c.id ∈ del))
    | none => false)).map Category.id

/-- Iterated collection, `n` rounds. -/
def closureIter (cats : List Category) (del : List Nat) : Nat → List Nat
  | 0 => del
  | n + 1 => childStep cats (closureIter cats del n)

/-- All category ids deleted when `cid` is deleted: `cid` together with its
cascade-collected descendants (a fixpoint is reached within
`cats.length` rounds). -/
def deletedSet (cats : List Category) (cid : Nat) : List Nat :=
  closureIter cats [cid] cats.length

/-- Deleting a Category: `Post.category` has `on_delete=PROTECT`, so if any
Post references a collected category the whole delete is rejected
(ProtectedError); otherwise the collected categories are removed. -/
def deleteCategory (cats : List Category) (posts : List Post) (cid : Nat) :
    Except String (List Category) :=
  let del := deletedSet cats cid
  if posts.any (fun p => decide (p.category ∈ del)) then
    Except.error "ProtectedError: referenced through protected foreign key Post.category"
  else
    Except.ok (cats.filter (fun c => !(decide (c.id ∈ del))))

/-- Deleting a Post: `Heading.post` has `on_delete=PROTECT`, so the delete
is rejected while any Heading references the post. -/
def deletePost (posts : List Post) (hs : List Heading) (pid : Nat) :
    Except String (List Post) :=
  if hs.any (fun g => g.post == pid) then
    Except.error "ProtectedError: referenced through protected foreign key Heading.post"
  else
    Except.ok (posts.filter (fun p => !(p.id == pid)))

/-- The Category table after an attempted delete: unchanged when rejected. -/
def applyDeleteCategory (cats : List Category) (posts : List Post) (cid : Nat) :
    List Category :=
  match deleteCategory cats posts cid with
  | Except.ok cats' => cats'
  | Except.error _ => cats

/-- The Post table after an attempted delete: unchanged when rejected. -/
def applyDeletePost (posts : List Post) (hs : List Heading) (pid : Nat) : List Post :=
  match deletePost posts hs pid with
  | Except.ok posts' => posts'
  | Except.error _ => posts

/-! Sample rows used by the concrete witnesses. -/

/-- A root category. -/
def catTech : Category :=
  { id := 10, parent := none, name := "Tech", title := some "Technology",
    description := none, thumbnail := none, slug := "tech" }

/-- A child category of `catTech`. -/
def catChild : Category :=
  { id := 11, parent := some 10, name := "AI", title := none,
    description := none, thumbnail := none, slug := "ai" }

/-- A draft post. -/
def postDraft : Post :=
  { id := 1, category := 10, title := "Hello World", description := "d1",
    content := "c1", thumbnail := "a.jpg", keywords := "k",
    slug := "hello-world", created_at := 5, updated_at := 5,
    status := Status.draft }

/-- A published post. -/
def postPub : Post :=
  { id := 2, category := 10, title := "Second Post", description := "d2",
    content := "c2", thumbnail := "b.jpg", keywords := "k",
    slug := "second-post", created_at := 7, updated_at := 7,
    status := Status.published }

/-- An older published post. -/
def postPub2 : Post :=
  { id := 3, category := 10, title := "Third Post", description := "d3",
    content := "c3", thumbnail := "c.jpg", keywords := "k",
    slug := "third-post", created_at := 3, updated_at := 3,
    status := Status.published }

/-- A heading attached to `postDraft`. -/
def headIntro : Heading :=
  { id := 20, post := 1, title := "Intro", slug := "intro", level := 2, order := 1 }

/-! Helper lemmas shared by several claims. -/

/-- Membership in the published manager's queryset. -/
theorem mem_postobjects {db : List Post} {p : Post} :
    p ∈ postobjects db ↔ p ∈ db ∧ p.status = Status.published := by
  simp [postobjects]

/-- Membership in the (sorted) list-view queryset. -/
theorem mem_listQueryset {db : List Post} {p : Post} :
    p ∈ listQueryset db ↔ p ∈ db ∧ p.status = Status.published := by
  rw [listQueryset, (List.perm_insertionSort postLe (postobjects db)).mem_iff]
  exact mem_postobjects

/-- With globally unique slugs, the detail lookup of a published member
returns exactly that row. -/
theorem detailQuery_eq_some_of_mem {db : List Post} {p : Post}
    (hmem : p ∈ db) (hpub : p.status = Status.published)
    (huniq : ∀ a ∈ db, ∀ b ∈ db, a.slug = b.slug → a = b) :
    detailQuery db p.slug = some p := by
  have hpo : p ∈ postobjects db := mem_postobjects.2 ⟨hmem, hpub⟩
  have hsome : ((postobjects db).find? (fun q => q.slug == p.slug)).isSome :=
    List.find?_isSome.2 ⟨p, hpo, by simp⟩
  obtain ⟨q, hq⟩ := Option.isSome_iff_exists.1 hsome
  have hqmem : q ∈ postobjects db := List.mem_of_find?_eq_some hq
  have hqslug : q.slug = p.slug := by
    have := List.find?_some hq
    simpa using this
  have hqdb : q ∈ db := (mem_postobjects.1 hqmem).1
  have : q = p := huniq q hqdb p hmem hqslug
  rw [detailQuery, hq, this]

/-- C8: the thumbnail storage path is a pure function of the owning
entity's human-readable field (`title` for Post, `name` for Category) and
the uploaded filename — `blog/{title}/{filename}` resp.
`blog_categories/{name}/{filename}` — so two entities with the same
title/name derive paths in the same directory. -/
theorem thumbnail_path_pure (p q : Post) (c d : Category) (f : String)
    (hpq : p.title = q.title) (hcd : c.name = d.name) :
    blog_thumbnail_directory p f = "blog/" ++ p.title ++ "/" ++ f ∧
    category_thumbnail_directory c f = "blog_categories/" ++ c.name ++ "/" ++ f ∧
    blog_thumbnail_directory p f = blog_thumbnail_directory q f ∧
    category_thumbnail_directory c f = category_thumbnail_directory d f := by
  refine ⟨rfl, rfl, ?_, ?_⟩
  · simp [blog_thumbnail_directory, hpq]
  · simp [category_thumbnail_directory, hcd]

/-- Witness for C8 at concrete rows sharing a title (resp. a name) but
differing elsewhere. -/
theorem thumbnail_path_pure_witness :
    ({ postDraft with id := 9 } : Post).title = postDraft.title ∧
    ({ catTech with id := 12 } : Category).name = catTech.name ∧
    (blog_thumbnail_directory { postDraft with id := 9 } "pic.png" =
        "blog/" ++ ({ postDraft with id := 9 } : Post).title ++ "/" ++ "pic.png" ∧
      category_thumbnail_directory { catTech with id := 12 } "pic.png" =
        "blog_categories/" ++ ({ catTech with id := 12 } : Category).name ++ "/" ++ "pic.png" ∧
      blog_thumbnail_directory { postDraft with id := 9 } "pic.png" =
        blog_thumbnail_directory postDraft "pic.png" ∧
      category_thumbnail_directory { catTech with id := 12 } "pic.png" =
        category_thumbnail_directory catTech "pic.png") :=
  ⟨rfl, rfl, thumbnail_path_pure { postDraft with id := 9 } postDraft
    { catTech with id := 12 } catTech "pic.png" rfl rfl⟩

/-- C3: inserting a Post whose slug is already used, or a Heading sharing
`(post, slug)` or `(post, order)` with an existing Heading, is rejected
with a validation failure; nothing is renamed or deduplicated and the
stored rows are unchanged. -/
theorem unique_constraint_rejection (db : List Post) (hs : List Heading)
    (p : Post) (h : Heading)
    (hp : ∃ q ∈ db, q.slug = p.slug)
    (hh : ∃ g ∈ hs, g.post = h.post ∧ (g.slug = h.slug ∨ g.order = h.order)) :
    (∃ e, insertPost db p = Except.error e) ∧
    applyInsertPost db p = db ∧
    (∃ e, insertHeading hs h = Except.error e) ∧
    applyInsertHeading hs h = hs := by
  obtain ⟨q, hqmem, hqslug⟩ := hp
  have hany : db.any (fun r => r.slug == p.slug) = true :=
    List.any_eq_true.2 ⟨q, hqmem, by simp [hqslug]⟩
  obtain ⟨g, hgmem, hgpost, hgdup⟩ := hh
  have hhead : ∃ e, insertHeading hs h = Except.error e := by
    by_cases hsl : hs.any (fun g => g.post == h.post && g.slug == h.slug) = true
    · exact ⟨"UNIQUE constraint failed: blog_heading.post_id, blog_heading.slug",
        by simp [insertHeading, hsl]⟩
    · have hord : g.order = h.order := by
        rcases hgdup with hgs | hgo
        · exact absurd (List.any_eq_true.2 ⟨g, hgmem, by simp [hgpost, hgs]⟩) hsl
        · exact hgo
      have hany2 : hs.any (fun g => g.post == h.post && g.order == h.order) = true :=
        List.any_eq_true.2 ⟨g, hgmem, by simp [hgpost, hord]⟩
      exact ⟨"UNIQUE constraint failed: blog_heading.post_id, blog_heading.order",
        by simp [insertHeading, hsl, hany2]⟩
  obtain ⟨e, he⟩ := hhead
  refine ⟨⟨"UNIQUE constraint failed: blog_post.slug", by simp [insertPost, hany]⟩,
    by simp [applyInsertPost, insertPost, hany],
    ⟨e, he⟩, by simp [applyInsertHeading, he]⟩

/-- Witness for C3: a second post with slug `"hello-world"` and a second
heading with the same `(post, slug)` pair are both rejected. -/
theorem unique_constraint_rejection_witness :
    (∃ q ∈ [postDraft, postPub], q.slug = ({ postPub2 with slug := "hello-world" } : Post).slug) ∧
    (∃ g ∈ [headIntro], g.post = ({ headIntro with id := 21, order := 2 } : Heading).post ∧
      (g.slug = ({ headIntro with id := 21, order := 2 } : Heading).slug ∨
        g.order = ({ headIntro with id := 21, order := 2 } : Heading).order)) ∧
    ((∃ e, insertPost [postDraft, postPub] { postPub2 with slug := "hello-world" } = Except.error e) ∧
      applyInsertPost [postDraft, postPub] { postPub2 with slug := "hello-world" } = [postDraft, postPub] ∧
      (∃ e, insertHeading [headIntro] { headIntro with id := 21, order := 2 } = Except.error e) ∧
      applyInsertHeading [headIntro] { headIntro with id := 21, order := 2 } = [headIntro]) :=
  ⟨by decide, by decide,
    unique_constraint_rejection [postDraft, postPub] [headIntro]
      { postPub2 with slug := "hello-world" } { headIntro with id := 21, order := 2 }
      (by decide) (by decide)⟩

/-- The collector only grows: the already-collected ids survive one step. -/
theorem mem_childStep {cats : List Category} {del : List Nat} {x : Nat}
    (hx : x ∈ del) : x ∈ childStep cats del :=
  List.mem_append_left _ hx

/-- The seed stays collected through any number of rounds. -/
theorem mem_closureIter {cats : List Category} {del : List Nat} {x : Nat}
    (n : Nat) (hx : x ∈ del) : x ∈ closureIter cats del n := by
  induction n with
  | zero => exact hx
  | succ n ih => exact mem_childStep ih

/-- The deleted category itself is always in its deleted set. -/
theorem self_mem_deletedSet (cats : List Category) (cid : Nat) :
    cid ∈ deletedSet cats cid :=
  mem_closureIter cats.length (by simp)

/-- C4: deleting a Category referenced by some Post, or a Post referenced
by some Heading, is rejected (ProtectedError) and the stored tables are
unchanged. -/
theorem protected_delete_rejection (cats : List Category) (posts : List Post)
    (hs : List Heading) (cid pid : Nat)
    (hc : ∃ p ∈ posts, p.category = cid)
    (hh : ∃ g ∈ hs, g.post = pid) :
    (∃ e, deleteCategory cats posts cid = Except.error e) ∧
    applyDeleteCategory cats posts cid = cats ∧
    (∃ e, deletePost posts hs pid = Except.error e) ∧
    applyDeletePost posts hs pid = posts := by
  obtain ⟨p, hpmem, hpcat⟩ := hc
  obtain ⟨g, hgmem, hgpost⟩ := hh
  have hex : ∃ x ∈ posts, x.category ∈ deletedSet cats cid :=
    ⟨p, hpmem, by rw [hpcat]; exact self_mem_deletedSet cats cid⟩
  have hexp : ∃ x ∈ hs, x.post = pid := ⟨g, hgmem, hgpost⟩
  refine ⟨⟨"ProtectedError: referenced through protected foreign key Post.category",
      by simp [deleteCategory, hex]⟩,
    by simp [applyDeleteCategory, deleteCategory, hex],
    ⟨"ProtectedError: referenced through protected foreign key Heading.post",
      by simp [deletePost, hexp]⟩,
    by simp [applyDeletePost, deletePost, hexp]⟩

/-- Witness for C4: `catTech` is referenced by `postDraft`, and `postDraft`
is referenced by `headIntro`; both deletes bounce and leave the tables
intact. -/
theorem protected_delete_rejection_witness :
    (∃ p ∈ [postDraft, postPub], p.category = 10) ∧
    (∃ g ∈ [headIntro], g.post = 1) ∧
    ((∃ e, deleteCategory [catTech, catChild] [postDraft, postPub] 10 = Except.error e) ∧
      applyDeleteCategory [catTech, catChild] [postDraft, postPub] 10 = [catTech, catChild] ∧
      (∃ e, deletePost [postDraft, postPub] [headIntro] 1 = Except.error e) ∧
      applyDeletePost [postDraft, postPub] [headIntro] 1 = [postDraft, postPub]) :=
  ⟨by decide, by decide,
    protected_delete_rejection [catTech, catChild] [postDraft, postPub] [headIntro] 10 1
      (by decide) (by decide)⟩

/-- The collected set grows monotonically with the round count. -/
theorem closureIter_subset_succ (cats : List Category) (del : List Nat) (n : Nat) :
    closureIter cats del n ⊆ closureIter cats del (n + 1) := fun _ hx =>
  mem_childStep hx

/-- Monotonicity of the collector in the number of rounds. -/
theorem closureIter_subset_of_le (cats : List Category) (del : List Nat)
    {m n : Nat} (hmn : m ≤ n) :
    closureIter cats del m ⊆ closureIter cats del n := by
  induction n with
  | zero =>
    have : m = 0 := Nat.le_zero.1 hmn
    subst this
    exact fun _ hx => hx
  | succ n ih =>
    rcases Nat.lt_or_ge m (n + 1) with h | h
    · exact fun x hx =>
        closureIter_subset_succ cats del n (ih (Nat.lt_succ_iff.1 h) hx)
    · have : m = n + 1 := Nat.le_antisymm hmn h
      subst this
      exact fun _ hx => hx

/-- Every direct child of the deleted category is collected. -/
theorem child_mem_deletedSet {cats : List Category} {cid : Nat} {d : Category}
    (hd : d ∈ cats) (hp : d.parent = some cid) :
    d.id ∈ deletedSet cats cid := by
  have hlen : 1 ≤ cats.length := List.length_pos_of_mem hd
  have h1 : d.id ∈ closureIter cats [cid] 1 := by
    by_cases hid : d.id ∈ ([cid] : List Nat)
    · exact mem_closureIter 1 hid
    · show d.id ∈ childStep cats [cid]
      refine List.mem_append_right _ (List.mem_map.2 ⟨d, List.mem_filter.2 ⟨hd, ?_⟩, rfl⟩)
      have hne : d.id ≠ cid := by simpa using hid
      simp [hp, hne]
  exact closureIter_subset_of_le cats [cid] hlen h1

/-- C5: deleting a Category that is the parent of other Categories (and that
no Post references, directly or through the collected descendants) succeeds,
and every child Category is deleted with it — cascade, in contrast to the
protect policy on Post and Heading references. -/
theorem category_cascade_delete (cats : List Category) (posts : List Post)
    (c : Category) (cid : Nat)
    (hc : c ∈ cats) (hpar : c.parent = some cid)
    (hnoref : ∀ p ∈ posts, p.category ∉ deletedSet cats cid) :
    ∃ cats', deleteCategory cats posts cid = Except.ok cats' ∧
      c ∉ cats' ∧
      (∀ d ∈ cats, d.parent = some cid → d ∉ cats') ∧
      (∀ d ∈ cats, d.id ∉ deletedSet cats cid → d ∈ cats') := by
  have hcond : ¬ ∃ x ∈ posts, x.category ∈ deletedSet cats cid := by
    rintro ⟨x, hxmem, hxdel⟩
    exact hnoref x hxmem hxdel
  refine ⟨cats.filter (fun d => !(decide (d.id ∈ deletedSet cats cid))), ?_, ?_, ?_, ?_⟩
  · simp [deleteCategory, hcond]
  · intro hmem
    have := (List.mem_filter.1 hmem).2
    simp [child_mem_deletedSet hc hpar] at this
  · intro d hdmem hdpar hmem
    have := (List.mem_filter.1 hmem).2
    simp [child_mem_deletedSet hdmem hdpar] at this
  · intro d hdmem hdnot
    exact List.mem_filter.2 ⟨hdmem, by simp [hdnot]⟩

/-- Witness for C5: deleting `catTech` (parent of `catChild`) with no posts
present succeeds and removes the child. -/
theorem category_cascade_delete_witness :
    catChild ∈ [catTech, catChild] ∧
    catChild.parent = some 10 ∧
    (∀ p ∈ ([] : List Post), p.category ∉ deletedSet [catTech, catChild] 10) ∧
    (∃ cats', deleteCategory [catTech, catChild] [] 10 = Except.ok cats' ∧
      catChild ∉ cats' ∧
      (∀ d ∈ [catTech, catChild], d.parent = some 10 → d ∉ cats') ∧
      (∀ d ∈ [catTech, catChild], d.id ∉ deletedSet [catTech, catChild] 10 → d ∈ cats')) :=
  ⟨by decide, by decide, by decide,
    category_cascade_delete [catTech, catChild] [] catChild 10
      (by decide) (by decide) (by decide)⟩

/-- C1: a draft Post is invisible to the public endpoints — the detail
query on its slug returns not-found, it is absent from the list queryset,
and (as for any slug no stored Post carries) the detail query cannot tell
a draft slug from a nonexistent one: both yield not-found. -/
theorem draft_posts_hidden (db : List Post) (p : Post)
    (hmem : p ∈ db)
    (huniq : ∀ a ∈ db, ∀ b ∈ db, a.slug = b.slug → a = b)
    (hdraft : p.status = Status.draft) :
    detailQuery db p.slug = none ∧
    p ∉ listQueryset db ∧
    (∀ s, (∀ q ∈ db, q.slug ≠ s) → detailQuery db s = none) := by
  refine ⟨?_, ?_, ?_⟩
  · rw [detailQuery, List.find?_eq_none]
    intro x hx
    have hxdb := mem_postobjects.1 hx
    intro hbeq
    have hxslug : x.slug = p.slug := by simpa using hbeq
    have hxp : x = p := huniq x hxdb.1 p hmem hxslug
    rw [hxp, hdraft] at hxdb
    exact absurd hxdb.2 (by simp)
  · intro hmemq
    have := (mem_listQueryset.1 hmemq).2
    rw [hdraft] at this
    exact absurd this (by simp)
  · intro s hs
    rw [detailQuery, List.find?_eq_none]
    intro x hx hbeq
    have hxslug : x.slug = s := by simpa using hbeq
    exact hs x (mem_postobjects.1 hx).1 hxslug

/-- Witness for C1: the draft `postDraft` in a two-post table is not found
by slug and absent from the list, and an unused slug is also not found. -/
theorem draft_posts_hidden_witness :
    postDraft ∈ [postDraft, postPub] ∧
    (∀ a ∈ [postDraft, postPub], ∀ b ∈ [postDraft, postPub], a.slug = b.slug → a = b) ∧
    postDraft.status = Status.draft ∧
    (detailQuery [postDraft, postPub] postDraft.slug = none ∧
      postDraft ∉ listQueryset [postDraft, postPub] ∧
      (∀ s, (∀ q ∈ [postDraft, postPub], q.slug ≠ s) →
        detailQuery [postDraft, postPub] s = none)) :=
  ⟨by decide, by decide, by decide,
    draft_posts_hidden [postDraft, postPub] postDraft (by decide) (by decide) (by decide)⟩

/-- C6: a published Post appears in the list output, projected to exactly
the `PostListItem` fields `id`, `title`, `description`, `thumbnail`,
`slug`, `category` (no `content`), while the detail query on its slug
returns the complete row. -/
theorem published_post_projection (db : List Post) (p : Post)
    (hmem : p ∈ db) (hpub : p.status = Status.published)
    (huniq : ∀ a ∈ db, ∀ b ∈ db, a.slug = b.slug → a = b) :
    postListSerialize p ∈ listOutput db ∧
    postListSerialize p =
      { id := p.id, title := p.title, description := p.description,
        thumbnail := p.thumbnail, slug := p.slug, category := p.category } ∧
    detailQuery db p.slug = some p := by
  refine ⟨?_, rfl, detailQuery_eq_some_of_mem hmem hpub huniq⟩
  exact List.mem_map.2 ⟨p, mem_listQueryset.2 ⟨hmem, hpub⟩, rfl⟩

/-- Witness for C6 at the concrete published post `postPub`. -/
theorem published_post_projection_witness :
    postPub ∈ [postDraft, postPub] ∧
    postPub.status = Status.published ∧
    (∀ a ∈ [postDraft, postPub], ∀ b ∈ [postDraft, postPub], a.slug = b.slug → a = b) ∧
    (postListSerialize postPub ∈ listOutput [postDraft, postPub] ∧
      postListSerialize postPub =
        { id := postPub.id, title := postPub.title, description := postPub.description,
          thumbnail := postPub.thumbnail, slug := postPub.slug,
          category := postPub.category } ∧
      detailQuery [postDraft, postPub] postPub.slug = some postPub) :=
  ⟨by decide, by decide, by decide,
    published_post_projection [postDraft, postPub] postPub (by decide) (by decide) (by decide)⟩

/-- C7: the list queryset holds only published rows, is ordered by the
model's default order (status rank ascending, then `created_at`
descending), hence — all statuses being equal — effectively by
`created_at` descending; an empty table yields the empty sequence, not an
error. -/
theorem list_default_ordering (db : List Post) :
    (∀ p ∈ listQueryset db, p.status = Status.published) ∧
    List.Pairwise postLe (listQueryset db) ∧
    List.Pairwise (fun a b => b.created_at ≤ a.created_at) (listQueryset db) ∧
    listOutput ([] : List Post) = [] := by
  have hall : ∀ p ∈ listQueryset db, p.status = Status.published :=
    fun p hp => (mem_listQueryset.1 hp).2
  have hsorted : List.Pairwise postLe (listQueryset db) :=
    List.sorted_insertionSort postLe (postobjects db)
  refine ⟨hall, hsorted, ?_, rfl⟩
  refine List.Pairwise.imp_of_mem ?_ hsorted
  intro a b ha hb hle
  rcases hle with hlt | ⟨_, hge⟩
  · rw [hall a ha, hall b hb] at hlt
    exact absurd hlt (by simp)
  · exact hge

/-- C9: both public endpoints draw from the same published-filtered
queryset — for a stored Post, the detail query on its slug succeeds
exactly when the post appears in the list queryset. -/
theorem list_detail_consistency (db : List Post) (p : Post)
    (hmem : p ∈ db)
    (huniq : ∀ a ∈ db, ∀ b ∈ db, a.slug = b.slug → a = b) :
    (detailQuery db p.slug).isSome ↔ p ∈ listQueryset db := by
  constructor
  · intro hsome
    obtain ⟨q, hq⟩ := Option.isSome_iff_exists.1 hsome
    have hqmem : q ∈ postobjects db := List.mem_of_find?_eq_some hq
    have hqslug : q.slug = p.slug := by
      have := List.find?_some hq
      simpa using this
    have hqdb := mem_postobjects.1 hqmem
    have hqp : q = p := huniq q hqdb.1 p hmem hqslug
    exact mem_listQueryset.2 ⟨hmem, hqp ▸ hqdb.2⟩
  · intro hlist
    have hflt := mem_listQueryset.1 hlist
    exact List.find?_isSome.2 ⟨p, mem_postobjects.2 hflt, by simp⟩

/-- Witness for C9: visibility agrees on the published `postPub2` in a
three-post table. -/
theorem list_detail_consistency_witness :
    postPub2 ∈ [postDraft, postPub, postPub2] ∧
    (∀ a ∈ [postDraft, postPub, postPub2], ∀ b ∈ [postDraft, postPub, postPub2],
      a.slug = b.slug → a = b) ∧
    ((detailQuery [postDraft, postPub, postPub2] postPub2.slug).isSome ↔
      postPub2 ∈ listQueryset [postDraft, postPub, postPub2]) :=
  ⟨by decide, by decide,
    list_detail_consistency [postDraft, postPub, postPub2] postPub2 (by decide) (by decide)⟩

/-! `django.utils.text.slugify`, used by `Heading.save` in `models.py`.
Its source is Django library code, not part of this repository. -/

/-- Python's character class `\w` over ASCII (the relevant range after the
ascii-encode step): `[a-zA-Z0-9_]`. -/
def isWordChar (c : Char) : Bool :=
  (97 ≤ c.toNat && c.toNat ≤ 122) || (65 ≤ c.toNat && c.toNat ≤ 90) ||
    (48 ≤ c.toNat && c.toNat ≤ 57) || c == '_'

/-- The ASCII-alphanumeric characters `[a-zA-Z0-9]` (the word characters
other than the underscore). -/
def isAsciiAlnum (c : Char) : Bool :=
  (97 ≤ c.toNat && c.toNat ≤ 122) || (65 ≤ c.toNat && c.toNat ≤ 90) ||
    (48 ≤ c.toNat && c.toNat ≤ 57)

/-- Python's character class `\s` over ASCII: space, tab, newline, carriage
return, vertical tab, form feed. -/
def isSpaceChar (c : Char) : Bool :=
  c == ' ' || c == '\t' || c == '\n' || c == '\r' || c == '\x0b' || c == '\x0c'

/-- The characters kept by `re.sub(r"[^\w\s-]", "", ...)`. -/
def keepChar (c : Char) : Bool :=
  isWordChar c || isSpaceChar c || c == '-'

/-- The characters merged into hyphens by `re.sub(r"[-\s]+", "-", ...)`. -/
def isDashSpace (c : Char) : Bool :=
  c == '-' || isSpaceChar c

/-- The characters removed at both ends by `.strip("-_")`. -/
def isStripChar (c : Char) : Bool :=
  c == '-' || c == '_'

/-- `re.sub(r"[-\s]+", "-", ...)`: each maximal run of hyphens/whitespace
becomes a single hyphen. -/
def collapseRuns : List Char → List Char
  | [] => []
  | [c] => if isDashSpace c then ['-'] else [c]
  | c :: d :: rest =>
    if isDashSpace c && isDashSpace d then collapseRuns (d :: rest)
    else (if isDashSpace c then '-' else c) :: collapseRuns (d :: rest)

/-- `.strip("-_")`: remove hyphens and underscores from both ends. -/
def stripEnds (cs : List Char) : List Char :=
  List.rdropWhile isStripChar (cs.dropWhile isStripChar)

/-- The character pipeline of `slugify`: ascii-encode (dropping what does
not survive), lowercase, delete everything but word chars / whitespace /
hyphens, collapse hyphen-and-whitespace runs to single hyphens, strip
`-`/`_` from the ends. -/
def slugifyChars (cs : List Char) : List Char :=
  stripEnds (collapseRuns
    (((cs.filter (fun c => c.toNat < 128)).map Char.toLower).filter keepChar))

/-- Modelled from the spec: `django.utils.text.slugify` (called by
`Heading.save`; its definition lives in the Django library, outside this
repository). Per the spec it is the standard web-safe slug transform —
lowercase, whitespace/punctuation replaced with hyphens, diacritics
stripped. The NFKD-then-ascii-encode step is modelled as dropping
non-ASCII characters (no decomposition table: an accented letter is
dropped rather than mapped to its base letter). -/
def slugify (s : String) : String :=
  String.mk (slugifyChars s.data)

/-- `Heading.save` in `models.py`: when the slug field is empty (falsy),
it is set to `slugify(self.title)` before the row is persisted. -/
def headingSave (h : Heading) : Heading :=
  if h.slug = "" then { h with slug := slugify h.title } else h

/-- One-step unfolding of `Char.toLower`. -/
theorem toLower_eq (c : Char) :
    c.toLower = if c.toNat ≥ 65 ∧ c.toNat ≤ 90 then Char.ofNat (c.toNat + 32) else c :=
  rfl

/-- Lowercase-letter codepoints survive the `Char.ofNat` round-trip. -/
theorem toNat_ofNat_small {m : Nat} (h1 : 97 ≤ m) (h2 : m ≤ 122) :
    (Char.ofNat m).toNat = m := by
  interval_cases m <;> decide

/-- Lowering an uppercase basic-latin letter adds 32 to the codepoint. -/
theorem toLower_toNat_of_upper {c : Char} (h : c.toNat ≥ 65 ∧ c.toNat ≤ 90) :
    c.toLower.toNat = c.toNat + 32 := by
  rw [toLower_eq c, if_pos h]
  exact toNat_ofNat_small (by omega) (by omega)

/-- `Char.toLower` is idempotent. -/
theorem toLower_toLower (c : Char) : c.toLower.toLower = c.toLower := by
  by_cases h : c.toNat ≥ 65 ∧ c.toNat ≤ 90
  · have h2 := toLower_toNat_of_upper h
    rw [toLower_eq c.toLower, if_neg (by rw [h2]; omega)]
  · have h1 : c.toLower = c := by rw [toLower_eq c, if_neg h]
    rw [h1, h1]

/-- `Char.toLower` stays within the ASCII range. -/
theorem toLower_toNat_lt (c : Char) (h : c.toNat < 128) : c.toLower.toNat < 128 := by
  by_cases hc : c.toNat ≥ 65 ∧ c.toNat ≤ 90
  · rw [toLower_toNat_of_upper hc]; omega
  · rw [toLower_eq c, if_neg hc]; exact h

/-- Every character of the collapsed list is either the hyphen or an
original character that is not a hyphen/whitespace. -/
theorem mem_collapseRuns {l : List Char} {c : Char} (hc : c ∈ collapseRuns l) :
    c = '-' ∨ (c ∈ l ∧ isDashSpace c = false) := by
  induction l with
  | nil => simp [collapseRuns] at hc
  | cons a l ih =>
    cases l with
    | nil =>
      by_cases ha : isDashSpace a = true
      · simp [collapseRuns, ha] at hc
        exact Or.inl hc
      · simp [collapseRuns, ha] at hc
        subst hc
        exact Or.inr ⟨by simp, by simpa using ha⟩
    | cons b l' =>
      by_cases hab : (isDashSpace a && isDashSpace b) = true
      · rw [collapseRuns, if_pos hab] at hc
        rcases ih hc with h | ⟨hm, hd⟩
        · exact Or.inl h
        · exact Or.inr ⟨List.mem_cons_of_mem a hm, hd⟩
      · rw [collapseRuns, if_neg hab] at hc
        rcases List.mem_cons.1 hc with h | h
        · by_cases ha : isDashSpace a = true
          · rw [if_pos ha] at h
            exact Or.inl h
          · rw [if_neg ha] at h
            subst h
            exact Or.inr ⟨by simp, by simpa using ha⟩
        · rcases ih h with h' | ⟨hm, hd⟩
          · exact Or.inl h'
          · exact Or.inr ⟨List.mem_cons_of_mem a hm, hd⟩

/-- The head of a collapsed nonempty list. -/
theorem collapseRuns_head (d : Char) (rest : List Char) :
    (collapseRuns (d :: rest)).head? = some (if isDashSpace d then '-' else d) := by
  induction rest generalizing d with
  | nil =>
    by_cases hd : isDashSpace d = true <;> simp [collapseRuns, hd]
  | cons e rest ih =>
    by_cases hde : (isDashSpace d && isDashSpace e) = true
    · have hde' : isDashSpace d = true ∧ isDashSpace e = true := by
        simpa [Bool.and_eq_true] using hde
      have hd := hde'.1
      have he := hde'.2
      rw [collapseRuns, if_pos hde, ih e]
      simp [hd, he]
    · rw [collapseRuns, if_neg hde]
      simp

/-- After collapsing, no two adjacent characters are both
hyphen/whitespace. -/
theorem chain_collapseRuns (l : List Char) :
    List.Chain' (fun a b => ¬(isDashSpace a = true ∧ isDashSpace b = true))
      (collapseRuns l) := by
  induction l with
  | nil => simp [collapseRuns]
  | cons a l ih =>
    cases l with
    | nil =>
      by_cases ha : isDashSpace a = true <;>
        simp [collapseRuns, ha, List.chain'_singleton]
    | cons b l' =>
      by_cases hab : (isDashSpace a && isDashSpace b) = true
      · rw [collapseRuns, if_pos hab]
        exact ih
      · rw [collapseRuns, if_neg hab]
        refine List.chain'_cons'.2 ⟨?_, ih⟩
        intro y hy
        rw [collapseRuns_head b l'] at hy
        have hy' : (if isDashSpace b = true then '-' else b) = y := by simpa using hy
        by_cases ha : isDashSpace a = true
        · have hb : isDashSpace b = false := by
            cases hbv : isDashSpace b
            · rfl
            · exact absurd (by simp [ha, hbv]) hab
          rw [if_neg (by simp [hb])] at hy'
          subst hy'
          simp [hb]
        · rw [if_neg ha]
          simp [ha]

/-- A list with no adjacent hyphen/whitespace pairs in which every
hyphen/whitespace character is already the hyphen collapses to itself. -/
theorem collapseRuns_eq_self {l : List Char}
    (h1 : List.Chain' (fun a b => ¬(isDashSpace a = true ∧ isDashSpace b = true)) l)
    (h2 : ∀ c ∈ l, isDashSpace c = true → c = '-') :
    collapseRuns l = l := by
  induction l with
  | nil => simp [collapseRuns]
  | cons a l ih =>
    cases l with
    | nil =>
      by_cases ha : isDashSpace a = true
      · have haa : a = '-' := h2 a (by simp) ha
        simp [collapseRuns, ha, haa]
      · simp [collapseRuns, ha]
    | cons b l' =>
      have hR := List.chain'_cons.1 h1
      have hab : ¬(isDashSpace a && isDashSpace b) = true := by
        intro hcontra
        exact hR.1 (by simpa [Bool.and_eq_true] using hcontra)
      rw [collapseRuns, if_neg hab]
      have htl : collapseRuns (b :: l') = b :: l' :=
        ih hR.2 (fun c hc hd => h2 c (List.mem_cons_of_mem a hc) hd)
      rw [htl]
      by_cases ha : isDashSpace a = true
      · rw [if_pos ha, h2 a (by simp) ha]
      · rw [if_neg ha]

/-- Stripping the ends is idempotent. -/
theorem stripEnds_idem (l : List Char) : stripEnds (stripEnds l) = stripEnds l := by
  have hdw : (stripEnds l).dropWhile isStripChar = stripEnds l := by
    cases hXnil : stripEnds l with
    | nil => simp
    | cons x xs =>
      have hpre : stripEnds l <+: l.dropWhile isStripChar :=
        List.rdropWhile_prefix isStripChar (l.dropWhile isStripChar)
      rw [hXnil] at hpre
      obtain ⟨t, ht⟩ := hpre
      have hhead : (l.dropWhile isStripChar).head? = some x := by
        rw [← ht]
        simp
      have hnp : isStripChar x = false := by
        have h0 := List.head?_dropWhile_not isStripChar l
        rw [hhead] at h0
        exact h0
      rw [List.dropWhile_cons_of_neg (by simp [hnp])]
  show List.rdropWhile isStripChar ((stripEnds l).dropWhile isStripChar) = stripEnds l
  rw [hdw]
  exact List.rdropWhile_idempotent isStripChar (l.dropWhile isStripChar)

/-- Characters of the stripped list come from the original list. -/
theorem mem_of_mem_stripEnds {l : List Char} {c : Char} (h : c ∈ stripEnds l) :
    c ∈ l :=
  (List.dropWhile_suffix isStripChar).subset
    ((List.rdropWhile_prefix isStripChar (l.dropWhile isStripChar)).subset h)

/-- The stripped list is a contiguous segment of the original. -/
theorem stripEnds_within (l : List Char) : stripEnds l <:+: l :=
  List.IsInfix.trans
    (List.IsPrefix.isInfix (List.rdropWhile_prefix isStripChar (l.dropWhile isStripChar)))
    (List.IsSuffix.isInfix (List.dropWhile_suffix isStripChar))

/-- If every character is strippable the whole list is stripped away. -/
theorem stripEnds_eq_nil {l : List Char} (h : ∀ c ∈ l, isStripChar c = true) :
    stripEnds l = [] := by
  have : l.dropWhile isStripChar = [] := List.dropWhile_eq_nil_iff.2 h
  show List.rdropWhile isStripChar (l.dropWhile isStripChar) = []
  rw [this]
  simp

/-- Every character of a slugified list is ASCII, lowercase-stable, kept by
the keep-filter, and is the hyphen whenever it is hyphen/whitespace. -/
theorem slugifyChars_char_facts {cs : List Char} {c : Char}
    (hc : c ∈ slugifyChars cs) :
    c.toNat < 128 ∧ c.toLower = c ∧ keepChar c = true ∧
      (isDashSpace c = true → c = '-') := by
  have hc1 : c ∈ collapseRuns
      (((cs.filter (fun c => c.toNat < 128)).map Char.toLower).filter keepChar) :=
    mem_of_mem_stripEnds hc
  rcases mem_collapseRuns hc1 with h | ⟨hm, hds⟩
  · subst h
    exact ⟨by decide, by decide, by decide, fun _ => rfl⟩
  · have hm' := List.mem_filter.1 hm
    obtain ⟨a, ha, hla⟩ := List.mem_map.1 hm'.1
    have haa : a.toNat < 128 := by simpa using (List.mem_filter.1 ha).2
    refine ⟨?_, ?_, hm'.2, fun hd => absurd hd (by simp [hds])⟩
    · rw [← hla]
      exact toLower_toNat_lt a haa
    · rw [← hla]
      exact toLower_toLower a

/-- The collapsed-runs invariant survives the final strip. -/
theorem chain_slugifyChars (cs : List Char) :
    List.Chain' (fun a b => ¬(isDashSpace a = true ∧ isDashSpace b = true))
      (slugifyChars cs) :=
  List.Chain'.infix (chain_collapseRuns _) (stripEnds_within _)

/-- The slug transform is idempotent on character lists. -/
theorem slugifyChars_idem (cs : List Char) :
    slugifyChars (slugifyChars cs) = slugifyChars cs := by
  have e1 : (slugifyChars cs).filter (fun c => c.toNat < 128) = slugifyChars cs :=
    List.filter_eq_self.2 (fun c hc => by
      simpa using (slugifyChars_char_facts hc).1)
  have e2 : (slugifyChars cs).map Char.toLower = slugifyChars cs := by
    have hfix : ∀ c ∈ slugifyChars cs, Char.toLower c = id c :=
      fun c hc => (slugifyChars_char_facts hc).2.1
    rw [List.map_congr_left hfix]
    exact List.map_id _
  have e3 : (slugifyChars cs).filter keepChar = slugifyChars cs :=
    List.filter_eq_self.2 (fun c hc => (slugifyChars_char_facts hc).2.2.1)
  have e4 : collapseRuns (slugifyChars cs) = slugifyChars cs :=
    collapseRuns_eq_self (chain_slugifyChars cs)
      (fun c hc hd => (slugifyChars_char_facts hc).2.2.2 hd)
  have e5 : stripEnds (slugifyChars cs) = slugifyChars cs := stripEnds_idem _
  calc slugifyChars (slugifyChars cs)
      = stripEnds (collapseRuns (slugifyChars cs)) := by
        rw [slugifyChars, e1, e2, e3]
    _ = slugifyChars cs := by rw [e4, e5]

/-- The slug transform is idempotent on strings. -/
theorem slugify_idem (s : String) : slugify (slugify s) = slugify s := by
  show String.mk (slugifyChars (String.mk (slugifyChars s.data)).data) =
    String.mk (slugifyChars s.data)
  rw [show (String.mk (slugifyChars s.data)).data = slugifyChars s.data from rfl,
    slugifyChars_idem]

/-- C2: persisting a Heading whose slug field is empty sets the slug to the
web-safe slug transform of its title; the derivation is deterministic
(equal titles give equal slugs) and the transform itself is idempotent. -/
theorem heading_slug_autogeneration (h : Heading) (hemp : h.slug = "") :
    (headingSave h).slug = slugify h.title ∧
    (∀ g : Heading, g.slug = "" → g.title = h.title →
      (headingSave g).slug = (headingSave h).slug) ∧
    slugify (slugify h.title) = slugify h.title := by
  have hsv : (headingSave h).slug = slugify h.title := by
    rw [headingSave, if_pos hemp]
  refine ⟨hsv, ?_, slugify_idem h.title⟩
  intro g hg ht
  have hgv : (headingSave g).slug = slugify g.title := by
    rw [headingSave, if_pos hg]
  rw [hgv, ht, hsv]

/-- Witness for C2 at a concrete heading with empty slug. -/
theorem heading_slug_autogeneration_witness :
    ({ headIntro with slug := "" } : Heading).slug = "" ∧
    ((headingSave { headIntro with slug := "" }).slug =
        slugify ({ headIntro with slug := "" } : Heading).title ∧
      (∀ g : Heading, g.slug = "" →
        g.title = ({ headIntro with slug := "" } : Heading).title →
        (headingSave g).slug = (headingSave { headIntro with slug := "" }).slug) ∧
      slugify (slugify ({ headIntro with slug := "" } : Heading).title) =
        slugify ({ headIntro with slug := "" } : Heading).title) :=
  ⟨rfl, heading_slug_autogeneration { headIntro with slug := "" } rfl⟩

/-- A title without ASCII-alphanumeric characters slugifies to nothing. -/
theorem slugifyChars_eq_nil_of_no_alnum {cs : List Char}
    (h : ∀ c ∈ cs, isAsciiAlnum c = false) : slugifyChars cs = [] := by
  apply stripEnds_eq_nil
  intro c hc
  rcases mem_collapseRuns hc with h1 | ⟨hm, hds⟩
  · subst h1
    decide
  · have hm' := List.mem_filter.1 hm
    obtain ⟨a, ha, hla⟩ := List.mem_map.1 hm'.1
    have hamem : a ∈ cs := (List.mem_filter.1 ha).1
    have hana : isAsciiAlnum a = false := h a hamem
    have hnotup : ¬(a.toNat ≥ 65 ∧ a.toNat ≤ 90) := by
      intro hcontra
      have hat : isAsciiAlnum a = true := by
        simp only [isAsciiAlnum, Bool.or_eq_true, decide_eq_true_eq, Bool.and_eq_true]
        omega
      simp [hat] at hana
    have hca : c = a := by rw [← hla, toLower_eq a, if_neg hnotup]
    subst hca
    have hk := hm'.2
    simp only [keepChar, isWordChar, Bool.or_eq_true, Bool.and_eq_true,
      decide_eq_true_eq, beq_iff_eq] at hk
    simp only [isDashSpace, Bool.or_eq_false_iff, beq_eq_false_iff_ne, ne_eq] at hds
    simp only [isAsciiAlnum, Bool.or_eq_false_iff, Bool.and_eq_false_iff,
      decide_eq_false_iff_not] at hana
    obtain ⟨hnd, hns⟩ := hds
    rcases hk with ((((hk | hk) | hk) | hk) | hk) | hk
    · rcases hana.1.1 with h' | h' <;> omega
    · rcases hana.1.2 with h' | h' <;> omega
    · rcases hana.2 with h' | h' <;> omega
    · subst hk
      decide
    · simp [hk] at hns
    · exact absurd hk hnd

/-- Saving a Heading never changes its post reference. -/
theorem headingSave_post (h : Heading) : (headingSave h).post = h.post := by
  rw [headingSave]
  split <;> rfl

/-- C10: a Heading saved with empty slug and an all-ASCII title with no
alphanumeric characters is persisted with an empty slug — no fallback or
error — so a second such Heading on the same Post is rejected by the
`(post, slug)` uniqueness constraint. The titles are required to be ASCII:
on ASCII input the modelled transform coincides with the real one, whereas
a diacritic-bearing letter would be transliterated to its base letter by
the NFKD step and could produce a non-empty slug. -/
theorem empty_slug_collision (h g : Heading) (hs : List Heading)
    (hemp : h.slug = "")
    (_hascii : ∀ c ∈ h.title.data, c.toNat < 128)
    (halpha : ∀ c ∈ h.title.data, isAsciiAlnum c = false)
    (gemp : g.slug = "")
    (_gascii : ∀ c ∈ g.title.data, c.toNat < 128)
    (galpha : ∀ c ∈ g.title.data, isAsciiAlnum c = false)
    (hpost : g.post = h.post) :
    (headingSave h).slug = "" ∧ (headingSave g).slug = "" ∧
    (∃ e, insertHeading (hs ++ [headingSave h]) (headingSave g) =
      Except.error e) := by
  have hs1 : (headingSave h).slug = "" := by
    rw [headingSave, if_pos hemp]
    show String.mk (slugifyChars h.title.data) = ""
    rw [slugifyChars_eq_nil_of_no_alnum halpha]
  have hs2 : (headingSave g).slug = "" := by
    rw [headingSave, if_pos gemp]
    show String.mk (slugifyChars g.title.data) = ""
    rw [slugifyChars_eq_nil_of_no_alnum galpha]
  have hany : (hs ++ [headingSave h]).any
      (fun x => x.post == (headingSave g).post && x.slug == (headingSave g).slug) =
        true := by
    refine List.any_eq_true.2 ⟨headingSave h, by simp, ?_⟩
    simp [headingSave_post, hpost, hs1, hs2]
  exact ⟨hs1, hs2,
    ⟨"UNIQUE constraint failed: blog_heading.post_id, blog_heading.slug",
      by simp [insertHeading, hany]⟩⟩

/-- A heading with a punctuation-only title and no slug. -/
def headPunct1 : Heading :=
  { id := 30, post := 1, title := "???", slug := "", level := 2, order := 3 }

/-- Another heading with a punctuation-only title and no slug, same post. -/
def headPunct2 : Heading :=
  { id := 31, post := 1, title := "!!", slug := "", level := 3, order := 4 }

/-- Witness for C10: two headings with ASCII punctuation-only titles on
post 1 collide after auto-slugging to the empty string. -/
theorem empty_slug_collision_witness :
    headPunct1.slug = "" ∧
    (∀ c ∈ headPunct1.title.data, c.toNat < 128) ∧
    (∀ c ∈ headPunct1.title.data, isAsciiAlnum c = false) ∧
    headPunct2.slug = "" ∧
    (∀ c ∈ headPunct2.title.data, c.toNat < 128) ∧
    (∀ c ∈ headPunct2.title.data, isAsciiAlnum c = false) ∧
    headPunct2.post = headPunct1.post ∧
    ((headingSave headPunct1).slug = "" ∧
      (headingSave headPunct2).slug = "" ∧
      (∃ e, insertHeading ([headIntro] ++ [headingSave headPunct1])
        (headingSave headPunct2) = Except.error e)) :=
  ⟨rfl, by decide, by decide, rfl, by decide, by decide, rfl,
    empty_slug_collision headPunct1 headPunct2
      [headIntro] rfl (by decide) (by decide) rfl (by decide) (by decide) rfl⟩
